import Mathlib

/-!
Shallow embedding of `calculate_ari.py` (ARI congruence pipeline).

Modelling conventions:
* A pandas cell is `Option String`: `none` is NaN/missing, `some s` a string value.
* A DataFrame is a column-name list plus a list of rows (lists of cells).
* Thresholds are identified by their two-decimal renderings ("0.90", ...),
  the canonical form used for file names, column names and report labels.
* `adjusted_rand_score` follows scikit-learn's pair-confusion implementation,
  with exact rational arithmetic in place of IEEE doubles.
* Loading a cluster file yields `ok rows`, `fileNotFound` (the only exception
  the script catches) or `loadError` (any other exception); exceptions are
  modelled with `Except`.
-/

namespace CalcAri

/-- A pandas cell: `none` is NaN/missing, `some s` a string value. -/
abbrev Cell := Option String

/-- Python `\s` (the whitespace class used in `clean_id`'s regex). -/
def isPySpace (c : Char) : Bool :=
  c == ' ' || c == '\t' || c == '\n' || c == '\r' || c == '\x0b' || c == '\x0c' ||
  c == '\x1c' || c == '\x1d' || c == '\x1e' || c == '\x1f' || c == '\x85' || c == '\xa0' ||
  c == '\u1680' || (decide (0x2000 ≤ c.toNat) && decide (c.toNat ≤ 0x200a)) ||
  c == '\u2028' || c == '\u2029' || c == '\u202f' || c == '\u205f' || c == '\u3000'

/-- A character of the class `[:.\s]` stripped by `clean_id`. -/
def isStripChar (c : Char) : Bool :=
  c == ':' || c == '.' || isPySpace c

/-- Remove the maximal trailing run of `[:.\s]` characters (the effect of
`re.sub(r'[:.\s]+$', '', s)`). -/
def dropTrailing (l : List Char) : List Char :=
  (l.reverse.dropWhile isStripChar).reverse

/-- String-level version of `dropTrailing`. -/
def stripTrailing (s : String) : String :=
  ⟨dropTrailing s.data⟩

/-- A Python value as seen by `clean_id`: either a text value or some
non-text value (NaN, a number, ...), kept opaque. -/
inductive PyVal where
  | str (s : String)
  | nonStr (tag : Nat)
deriving DecidableEq, Repr

/-- The function `clean_id`: non-text values pass through, strings lose their trailing
run of colons, periods and whitespace. -/
def clean_id : PyVal → PyVal
  | .str s => .str (stripTrailing s)
  | .nonStr t => .nonStr t

/-- All unordered index pairs (i < j) of a list, as ordered value pairs. -/
def pairList : List α → List (α × α)
  | [] => []
  | x :: xs => xs.map (fun y => (x, y)) ++ pairList xs

/-- Pairs placed in the same group by both labelings (tp of the
pair-confusion matrix, unordered count). -/
def tpCount (v : List (String × String)) : Nat :=
  (pairList v).countP (fun q => q.1.1 == q.2.1 && q.1.2 == q.2.2)

/-- Pairs joined by the first labeling but split by the second (fn). -/
def fnCount (v : List (String × String)) : Nat :=
  (pairList v).countP (fun q => q.1.1 == q.2.1 && !(q.1.2 == q.2.2))

/-- Pairs split by the first labeling but joined by the second (fp). -/
def fpCount (v : List (String × String)) : Nat :=
  (pairList v).countP (fun q => !(q.1.1 == q.2.1) && q.1.2 == q.2.2)

/-- Pairs split by both labelings (tn). -/
def tnCount (v : List (String × String)) : Nat :=
  (pairList v).countP (fun q => !(q.1.1 == q.2.1) && !(q.1.2 == q.2.2))

/-- scikit-learn's `adjusted_rand_score` on a zipped pair of label sequences:
pair-confusion counts, the `fn == 0 and fp == 0` full-agreement special case
returning 1.0, otherwise `2(tp·tn − fn·fp) / ((tp+fn)(fn+tn) + (tp+fp)(fp+tn))`
(the formula is invariant under the factor 2 between ordered and unordered
pair counts). -/
def adjusted_rand_score (v : List (String × String)) : ℚ :=
  if fnCount v = 0 ∧ fpCount v = 0 then 1
  else
    (2 * ((tpCount v : ℚ) * (tnCount v : ℚ) - (fnCount v : ℚ) * (fpCount v : ℚ))) /
      (((tpCount v : ℚ) + (fnCount v : ℚ)) * ((fnCount v : ℚ) + (tnCount v : ℚ)) +
        ((tpCount v : ℚ) + (fpCount v : ℚ)) * ((fpCount v : ℚ) + (tnCount v : ℚ)))

/-- A DataFrame: column names plus rows of cells (row i, column j at index j). -/
structure DF where
  cols : List String
  rows : List (List Cell)
deriving DecidableEq, Repr

/-- First index of a column name in a column list. -/
def idxOf? (c : String) : List String → Option Nat
  | [] => none
  | a :: as => if a == c then some 0 else (idxOf? c as).map (· + 1)

/-- Cell of a row at a named column (NaN when the column is absent or the
row is too short). -/
def getCell (cols : List String) (row : List Cell) (c : String) : Cell :=
  match idxOf? c cols with
  | some i => (row.get? i).join
  | none => none

/-- Version of `clean_id` at cell level: NaN passes through, strings are stripped. -/
def cleanCell : Cell → Cell
  | some s => some (stripTrailing s)
  | none => none

/-- Apply `clean_id` to the identifier (first) component of every
assignment-file row, as `df_cluster['Seq_ID'].apply(clean_id)` does. -/
def cleanKeys (l : List (Cell × Cell)) : List (Cell × Cell) :=
  l.map (fun p => (cleanCell p.1, p.2))

/-- The cluster values of all assignment rows whose key equals `k`
(pandas merge keys: NaN matches NaN). -/
def rowMatches (l : List (Cell × Cell)) (k : Cell) : List Cell :=
  (l.filter (fun p => p.1 == k)).map Prod.snd

/-- Embeds `pd.merge(df, df_cluster, on='Seq_ID', how='left')` where the right table
has exactly the key column and one value column `c`: every left row is kept,
repeated once per matching right row, with the matched value appended;
unmatched left rows get NaN appended. -/
def mergeLeftCluster (df : DF) (c : String) (l : List (Cell × Cell)) : DF :=
  { cols := df.cols ++ [c]
    rows := df.rows.flatMap (fun r =>
      if (rowMatches l (getCell df.cols r "Seq_ID")).isEmpty then [r ++ [(none : Cell)]]
      else (rowMatches l (getCell df.cols r "Seq_ID")).map (fun v => r ++ [v])) }

/-- Embeds `df_merged[col] = None`: append a column that is NaN in every row. -/
def addNoneCol (df : DF) (c : String) : DF :=
  { cols := df.cols ++ [c], rows := df.rows.map (fun r => r ++ [(none : Cell)]) }

/-- Outcome of `pd.read_csv` on one cluster file: parsed rows, the
`FileNotFoundError` the script catches, or any other exception. -/
inductive LoadResult where
  | ok (rows : List (Cell × Cell))
  | fileNotFound
  | loadError
deriving DecidableEq, Repr

/-- One coverage mode's slice of the file system: whether its directory
exists, and the load outcome of each threshold's cluster file. -/
structure ModeFS where
  dirExists : Bool
  files : String → LoadResult

/-- Raw merged-column name `Cluster_ID_<t>` for threshold rendering `t`. -/
def clusterColName (t : String) : String := "Cluster_ID_" ++ t

/-- Normalized (lower-cased, trimmed) column name `cluster_id_<t>`. -/
def clusterLabelCol (t : String) : String := "cluster_id_" ++ t

/-- One iteration of the merge loop: load threshold `t`'s file and left-join
it (keys cleaned), fill a NaN column if the file is missing, or let any
other load exception escape. -/
def mergeStep (files : String → LoadResult) (df : DF) (t : String) : Except Unit DF :=
  match files t with
  | .ok l => .ok (mergeLeftCluster df (clusterColName t) (cleanKeys l))
  | .fileNotFound => .ok (addNoneCol df (clusterColName t))
  | .loadError => .error ()

/-- The merge loop over all thresholds, starting from the taxonomy table. -/
def buildMerged (tax : DF) (files : String → LoadResult) (ths : List String) :
    Except Unit DF :=
  ths.foldlM (mergeStep files) tax

/-- Python `str.lower()` (character-wise; ASCII case mapping, which is all
the script's column names and the literals "na"/"unclassified" exercise). -/
def toLowerStr (s : String) : String := ⟨s.data.map Char.toLower⟩

/-- Python `str.strip()`: drop leading and trailing whitespace. -/
def trimStr (s : String) : String :=
  ⟨((s.data.dropWhile isPySpace).reverse.dropWhile isPySpace).reverse⟩

/-- Embeds `col.lower().strip()`. -/
def normalizeName (c : String) : String := trimStr (toLowerStr c)

/-- Embeds `df_merged.columns = [col.lower().strip() for col in df_merged.columns]`. -/
def normalizeCols (df : DF) : DF :=
  { cols := df.cols.map normalizeName, rows := df.rows }

/-- Drop rows with NaN in either column, then drop rows whose rank label is
case-insensitively "na" or "unclassified" — the valid rows of one
(rank, threshold) evaluation. -/
def validRows (pairs : List (Cell × Cell)) : List (String × String) :=
  (pairs.filterMap (fun p =>
      match p with
      | (some a, some b) => some (a, b)
      | _ => none)).filter
    (fun q => !(toLowerStr q.1 == "na" || toLowerStr q.1 == "unclassified"))

/-- The variability guard: N > 1 and more than one distinct value in each
of the two label columns. -/
def ariGuard (v : List (String × String)) : Bool :=
  decide (1 < v.length) && decide (1 < ((v.map Prod.fst).dedup).length) &&
    decide (1 < ((v.map Prod.snd).dedup).length)

/-- ARI score of one extracted column pair: NaN (`none`) unless the guard
passes. -/
def scoreFromPairs (pairs : List (Cell × Cell)) : Option ℚ :=
  if ariGuard (validRows pairs) then some (adjusted_rand_score (validRows pairs))
  else none

/-- One row of the per-mode results table. -/
structure ScoreRecord where
  coverageMode : String
  taxonomicRank : String
  aaiThreshold : String
  ariScore : Option ℚ
  nSequences : Nat
deriving DecidableEq, Repr

/-- Python `str.capitalize()`. -/
def pyCapitalize (s : String) : String :=
  match s.data with
  | [] => ""
  | c :: cs => ⟨c.toUpper :: cs.map Char.toLower⟩

/-- The (rank label, cluster label) column pair of a merged table. -/
def extractPairs (df : DF) (c1 c2 : String) : List (Cell × Cell) :=
  df.rows.map (fun r => (getCell df.cols r c1, getCell df.cols r c2))

/-- The Score Record emitted for one (rank, threshold) combination. -/
def computeRecord (mode rank t : String) (df : DF) : ScoreRecord :=
  { coverageMode := mode
    taxonomicRank := pyCapitalize rank
    aaiThreshold := t
    ariScore := scoreFromPairs (extractPairs df rank (clusterLabelCol t))
    nSequences := (validRows (extractPairs df rank (clusterLabelCol t))).length }

/-- The fixed rank list of the script. -/
def taxonomicRanks : List String := ["genus", "family", "order", "phylum"]

/-- The nested rank/threshold loop over the normalized merged table,
skipping absent columns silently. -/
def modeRecords (mode : String) (df : DF) (ths : List String) : List ScoreRecord :=
  taxonomicRanks.flatMap (fun rank =>
    if rank ∈ df.cols then
      ths.filterMap (fun t =>
        if clusterLabelCol t ∈ df.cols then some (computeRecord mode rank t df)
        else none)
    else [])

/-- The function `calculate_ari_for_mode`: `none` when the mode directory is absent,
otherwise the Score Records of the merged-and-normalized table; a load
exception other than a missing file escapes as `.error`. -/
def calculate_ari_for_mode (tax : DF) (fs : ModeFS) (mode : String)
    (ths : List String) : Except Unit (Option (List ScoreRecord)) :=
  if fs.dirExists then
    match buildMerged tax fs.files ths with
    | .error e => .error e
    | .ok m => .ok (some (modeRecords mode (normalizeCols m) ths))
  else .ok none

/-- Pivot key of a record: (Taxonomic_Rank, Coverage_Mode, AAI_Threshold). -/
def recKey (r : ScoreRecord) : String × String × String :=
  (r.taxonomicRank, r.coverageMode, r.aaiThreshold)

/-- Mean of a pivot group's ARI scores, skipping NaN; NaN when no score in
the group is defined (pandas `groupby(...).mean()`). -/
def groupMean (recs : List ScoreRecord) (k : String × String × String) : Option ℚ :=
  let d := (recs.filter (fun r => recKey r == k)).filterMap (fun r => r.ariScore)
  if d.isEmpty then none else some (d.sum / (d.length : ℚ))

/-- Group keys that survive `pivot_table`'s default `dropna=True`: those
whose aggregated value is defined. -/
def survivingKeys (recs : List ScoreRecord) : List (String × String × String) :=
  ((recs.map recKey).dedup).filter (fun k => (groupMean recs k).isSome)

/-- Lexicographic order on character lists by code point. -/
def chLe : List Char → List Char → Bool
  | [], _ => true
  | _ :: _, [] => false
  | a :: as, b :: bs =>
    if a.val < b.val then true else if b.val < a.val then false else chLe as bs

/-- Lexicographic order on strings (Python `<` on the sort keys). -/
def strLe (a b : String) : Bool := chLe a.data b.data

/-- Lexicographic order on (mode, threshold) column keys. -/
def pairLe (a b : String × String) : Bool :=
  if a.1 == b.1 then strLe a.2 b.2 else strLe a.1 b.1

/-- Insert into a sorted list. -/
def insertSorted (le : α → α → Bool) (a : α) : List α → List α
  | [] => [a]
  | b :: bs => if le a b then a :: b :: bs else b :: insertSorted le a bs

/-- Insertion sort. -/
def sortBy (le : α → α → Bool) (l : List α) : List α :=
  l.foldr (insertSorted le) []

/-- The pivoted summary matrix: sorted rank row index, sorted
(mode, threshold) column index, cells in row-major order. -/
structure Pivot where
  rowIndex : List String
  colIndex : List (String × String)
  cells : List (List (Option ℚ))
deriving DecidableEq, Repr

/-- Embeds `.round(4)` on a defined cell (floats modelled as exact rationals). -/
def round4 (q : ℚ) : ℚ := ((round (q * 10000) : ℤ) : ℚ) / 10000

/-- Embeds `final_df.pivot_table(index='Taxonomic_Rank',
columns=['Coverage_Mode','AAI_Threshold'], values='ARI_Score').round(4)`:
group by key, aggregate by NaN-skipping mean, drop groups whose aggregate is
NaN (pandas default `dropna=True`), unstack into sorted row and column
indices, round surviving cells to 4 decimals. -/
def pivotTable (recs : List ScoreRecord) : Pivot :=
  let keys := survivingKeys recs
  let rows := sortBy strLe ((keys.map (fun k => k.1)).dedup)
  let cols := sortBy pairLe ((keys.map (fun k => (k.2.1, k.2.2))).dedup)
  { rowIndex := rows
    colIndex := cols
    cells := rows.map (fun rk => cols.map (fun c =>
      (groupMean recs (rk, c.1, c.2)).map round4)) }

/-- Embeds the rename of the first column to 'Seq_ID' followed by
`df_tax['Seq_ID'].apply(clean_id)`. -/
def prepTax (df : DF) : DF :=
  { cols := match df.cols with | [] => [] | _ :: cs => "Seq_ID" :: cs
    rows := df.rows.map (fun r =>
      match r with | [] => [] | c :: cs => cleanCell c :: cs) }

/-- The script's fixed threshold list, in its canonical two-decimal form. -/
def stdThresholds : List String := ["0.90", "0.70", "0.50", "0.30"]

/-- Observable outcome of `main`: either no output file is written (taxonomy
parse failure, no results, or an escaped exception) or the pivot table is
printed and written. -/
inductive MainOutcome where
  | noOutput
  | output (p : Pivot)
deriving DecidableEq, Repr

/-- The Score Records the single configured mode contributes to
`all_results` (empty when the mode is skipped or an exception escapes). -/
def producedRecords (taxLoad : Option DF) (fs : ModeFS) : List ScoreRecord :=
  match taxLoad with
  | none => []
  | some df0 =>
    match calculate_ari_for_mode (prepTax df0) fs "cov_short_80" stdThresholds with
    | .ok (some recs) => recs
    | _ => []

/-- The function `main` with the script's fixed parameters (thresholds 0.9/0.7/0.5/0.3,
`coverage_modes = ['cov_short_80']`): `taxLoad` is the outcome of parsing the
taxonomy file (`none` = unparseable). An empty record table makes the pivot
raise (no 'Taxonomic_Rank' column on an empty frame), so no output is
written there either. -/
def main (taxLoad : Option DF) (fs : ModeFS) : MainOutcome :=
  match taxLoad with
  | none => .noOutput
  | some df0 =>
    match calculate_ari_for_mode (prepTax df0) fs "cov_short_80" stdThresholds with
    | .error _ => .noOutput
    | .ok none => .noOutput
    | .ok (some recs) =>
      if recs.isEmpty then .noOutput else .output (pivotTable recs)

end CalcAri

namespace CalcAri

/-! ### Derived definitions used in the specifications -/

/-- Row well-formedness: every row has one cell per column. -/
abbrev Wf (df : DF) : Prop := ∀ r ∈ df.rows, r.length = df.cols.length

/-- The cluster value a left-join contributes for key `k` when the
assignment keys are duplicate-free: the value of the unique matching row,
or NaN when no row matches. -/
def lookupVal (l : List (Cell × Cell)) (k : Cell) : Cell :=
  match l.find? (fun p => p.1 == k) with
  | some p => p.2
  | none => none

/-- The cluster cell threshold `t` contributes for identifier `k`: NaN when
the file is missing or failed to load, else the looked-up value (keys
cleaned). -/
def assignCell (files : String → LoadResult) (t : String) (k : Cell) : Cell :=
  match files t with
  | .ok l => lookupVal (cleanKeys l) k
  | _ => none

/-! ### Concrete tables for counterexamples and witnesses -/

/-- Reference table of the C2 scenario: identifiers A, B, C with genus
g1, g2, "Unclassified". -/
def taxC2 : DF :=
  ⟨["Seq_ID", "Genus"],
   [[some "A", some "g1"], [some "B", some "g2"], [some "C", some "Unclassified"]]⟩

/-- File system of the C2 scenario: only threshold 0.70 has a cluster file,
mapping A to c1, B to c2, C to c1. -/
def fsC2 : ModeFS :=
  ⟨true, fun t =>
    if t = "0.70" then
      .ok [(some "A", some "c1"), (some "B", some "c2"), (some "C", some "c1")]
    else .fileNotFound⟩

/-- The Score Records of the C2 scenario. -/
def recsC2 : List ScoreRecord :=
  match calculate_ari_for_mode taxC2 fsC2 "cov_short_80" stdThresholds with
  | .ok (some r) => r
  | _ => []

/-- The merged table of the C2 scenario. -/
def mergedC2 : DF :=
  match buildMerged taxC2 fsC2.files stdThresholds with
  | .ok m => m
  | _ => ⟨[], []⟩

/-- A one-row, one-rank reference table used by several concrete checks. -/
def taxOneRow : DF := ⟨["Seq_ID", "Genus"], [[some "A", some "g1"]]⟩

/-- Assignment files with a duplicated identifier A at threshold 0.90. -/
def filesC4 : String → LoadResult := fun t =>
  if t = "0.90" then .ok [(some "A", some "c1"), (some "A", some "c2")]
  else .fileNotFound

/-- Assignment files that are all missing (used by witnesses). -/
def filesAllMissing : String → LoadResult := fun _ => .fileNotFound

/-- File system where threshold 0.90's cluster file fails to load with an
exception other than a missing file. -/
def fsC5 : ModeFS := ⟨true, fun t => if t = "0.90" then .loadError else .fileNotFound⟩

/-- File system whose directory exists and whose cluster files are all
missing. -/
def fsAllMissing : ModeFS := ⟨true, filesAllMissing⟩

/-- Records with an all-undefined threshold column (0.70) and an
all-undefined rank row (Order), used by the C6 counterexample. -/
def recsC6 : List ScoreRecord :=
  [⟨"cov_short_80", "Genus", "0.90", some (1/2), 4⟩,
   ⟨"cov_short_80", "Genus", "0.70", none, 0⟩,
   ⟨"cov_short_80", "Order", "0.90", none, 0⟩]

/-- Two-row reference table used by the C9 witness. -/
def taxW9 : DF := ⟨["Seq_ID", "Genus"], [[some "A", some "g1"], [some "B", some "g2"]]⟩

end CalcAri

namespace CalcAri

/-! ### Helper lemmas -/

theorem dropWhile_head_false (p : α → Bool) (l : List α) :
    ∀ c, (l.dropWhile p).head? = some c → p c = false := by
  induction l with
  | nil => intro c h; simp at h
  | cons a l ih =>
    intro c h
    rw [List.dropWhile_cons] at h
    cases hp : p a with
    | true => rw [hp] at h; simp only [if_true] at h; exact ih c h
    | false =>
      rw [hp] at h
      simp only [Bool.false_eq_true, if_false, List.head?_cons, Option.some.injEq] at h
      subst h; exact hp

theorem dropWhile_dropWhile (p : α → Bool) (l : List α) :
    (l.dropWhile p).dropWhile p = l.dropWhile p := by
  induction l with
  | nil => rfl
  | cons a l ih =>
    rw [List.dropWhile_cons]
    cases hp : p a with
    | true => simp only [if_true]; exact ih
    | false => simp [List.dropWhile_cons, hp]

theorem pairList_map (f : α → β) (l : List α) :
    pairList (l.map f) = (pairList l).map (fun q => (f q.1, f q.2)) := by
  induction l with
  | nil => rfl
  | cons x xs ih => simp [pairList, ih, List.map_map, Function.comp]

theorem scoreFromPairs_isSome_iff (pairs : List (Cell × Cell)) :
    (scoreFromPairs pairs).isSome = true ↔
      (1 < (validRows pairs).length ∧
        1 < ((validRows pairs).map Prod.fst).toFinset.card ∧
        1 < ((validRows pairs).map Prod.snd).toFinset.card) := by
  have hguard : ariGuard (validRows pairs) = true ↔
      (1 < (validRows pairs).length ∧
        1 < ((validRows pairs).map Prod.fst).toFinset.card ∧
        1 < ((validRows pairs).map Prod.snd).toFinset.card) := by
    simp [ariGuard, List.card_toFinset, and_assoc]
  rw [scoreFromPairs]
  by_cases hg : ariGuard (validRows pairs) = true
  · rw [if_pos hg]
    simpa using hguard.mp hg
  · rw [if_neg hg]
    simp only [Option.isSome_none, Bool.false_eq_true, false_iff]
    intro hcontra
    exact hg (hguard.mpr hcontra)

theorem scoreFromPairs_allSame (pairs : List (Cell × Cell))
    (h : ∀ x ∈ validRows pairs, ∀ y ∈ validRows pairs, x.1 = y.1) :
    scoreFromPairs pairs = none := by
  have hcard : ((validRows pairs).map Prod.fst).toFinset.card ≤ 1 := by
    apply Finset.card_le_one.mpr
    intro a ha b hb
    rw [List.mem_toFinset, List.mem_map] at ha hb
    obtain ⟨x, hx, rfl⟩ := ha
    obtain ⟨y, hy, rfl⟩ := hb
    exact h x hx y hy
  cases hs : scoreFromPairs pairs with
  | none => rfl
  | some q =>
    have hsome : (scoreFromPairs pairs).isSome = true := by rw [hs]; rfl
    have hprops := (scoreFromPairs_isSome_iff pairs).mp hsome
    exact absurd hprops.2.1 (by omega)

theorem tpCount_swap (v : List (String × String)) :
    tpCount (v.map Prod.swap) = tpCount v := by
  rw [tpCount, tpCount, pairList_map, List.countP_map]
  exact List.countP_congr (fun q _ => by simp [Function.comp, Bool.and_comm])

theorem tnCount_swap (v : List (String × String)) :
    tnCount (v.map Prod.swap) = tnCount v := by
  rw [tnCount, tnCount, pairList_map, List.countP_map]
  exact List.countP_congr (fun q _ => by simp [Function.comp, Bool.and_comm])

theorem fnCount_swap (v : List (String × String)) :
    fnCount (v.map Prod.swap) = fpCount v := by
  rw [fnCount, fpCount, pairList_map, List.countP_map]
  exact List.countP_congr (fun q _ => by simp [Function.comp, Bool.and_comm])

theorem fpCount_swap (v : List (String × String)) :
    fpCount (v.map Prod.swap) = fnCount v := by
  rw [fpCount, fnCount, pairList_map, List.countP_map]
  exact List.countP_congr (fun q _ => by simp [Function.comp, Bool.and_comm])

/-! ### Claim theorems (first batch) -/

/-- C7: the Identifier Normalizer (`clean_id`) returns non-text values
unchanged, and on a text value removes exactly the maximal trailing run of
colons, periods and whitespace: the input splits as the result followed by a
junk suffix made only of strip characters, and the result does not end in a
strip character (so interior strip characters are untouched and nothing more
is removed). It is a total function. -/
theorem clean_id_spec :
    (∀ t, clean_id (.nonStr t) = .nonStr t) ∧
    (∀ s : String, clean_id (.str s) = .str (stripTrailing s)) ∧
    (∀ s : String, ∃ junk : List Char,
      s.data = (stripTrailing s).data ++ junk ∧
      (∀ c ∈ junk, isStripChar c = true) ∧
      (∀ c, ((stripTrailing s).data).getLast? = some c → isStripChar c = false)) := by
  refine ⟨fun t => rfl, fun s => rfl, fun s => ?_⟩
  refine ⟨(s.data.reverse.takeWhile isStripChar).reverse, ?_, ?_, ?_⟩
  · show s.data = (s.data.reverse.dropWhile isStripChar).reverse ++
      (s.data.reverse.takeWhile isStripChar).reverse
    have h := congrArg List.reverse
      (List.takeWhile_append_dropWhile (p := isStripChar) (l := s.data.reverse))
    rw [List.reverse_append, List.reverse_reverse] at h
    exact h.symm
  · intro c hc
    exact List.mem_takeWhile_imp (List.mem_reverse.mp hc)
  · intro c hc
    have h : ((s.data.reverse.dropWhile isStripChar).reverse).getLast? = some c := hc
    rw [List.getLast?_reverse] at h
    exact dropWhile_head_false _ _ c h

/-- Witness for C7 at a concrete string with interior and trailing strip
characters. -/
theorem clean_id_spec_witness :
    ∃ junk : List Char,
      "ab:. x:. ".data = (stripTrailing "ab:. x:. ").data ++ junk ∧
      (∀ c ∈ junk, isStripChar c = true) ∧
      (∀ c, ((stripTrailing "ab:. x:. ").data).getLast? = some c →
        isStripChar c = false) :=
  clean_id_spec.2.2 "ab:. x:. "

/-- C10: the Identifier Normalizer is idempotent: applying `clean_id` twice
gives the same result as applying it once, on every input value. -/
theorem clean_id_idempotent (v : PyVal) : clean_id (clean_id v) = clean_id v := by
  cases v with
  | nonStr t => rfl
  | str s =>
    show PyVal.str (stripTrailing (stripTrailing s)) = PyVal.str (stripTrailing s)
    congr 1
    show (⟨dropTrailing (dropTrailing s.data)⟩ : String) = ⟨dropTrailing s.data⟩
    congr 1
    unfold dropTrailing
    rw [List.reverse_reverse, dropWhile_dropWhile]

/-- C8: the embedded `adjusted_rand_score` returns exactly 1 whenever the two
label sequences induce the same pairwise co-membership relation (identical
partitions up to relabeling, which covers identical label sequences), and it
is symmetric in its two label columns. -/
theorem ari_standard (v : List (String × String)) :
    ((∀ q ∈ pairList v, (q.1.1 = q.2.1 ↔ q.1.2 = q.2.2)) →
      adjusted_rand_score v = 1) ∧
    adjusted_rand_score (v.map Prod.swap) = adjusted_rand_score v := by
  constructor
  · intro h
    have hfn : fnCount v = 0 := by
      rw [fnCount, List.countP_eq_zero]
      intro q hq
      simp only [Bool.and_eq_true, beq_iff_eq, Bool.not_eq_true', beq_eq_false_iff_ne,
        ne_eq, not_and]
      intro h1 h2
      exact h2 ((h q hq).mp h1)
    have hfp : fpCount v = 0 := by
      rw [fpCount, List.countP_eq_zero]
      intro q hq
      simp only [Bool.and_eq_true, beq_iff_eq, Bool.not_eq_true', beq_eq_false_iff_ne,
        ne_eq, not_and]
      intro h1 h2
      exact h1 ((h q hq).mpr h2)
    rw [adjusted_rand_score, if_pos ⟨hfn, hfp⟩]
  · rw [adjusted_rand_score, adjusted_rand_score,
      tpCount_swap, tnCount_swap, fnCount_swap, fpCount_swap]
    by_cases h1 : fnCount v = 0 <;> by_cases h2 : fpCount v = 0 <;>
      simp [h1, h2] <;> congr 1 <;> ring

/-- Witness for C8: two identical partitions written with different labels
score exactly 1. -/
theorem ari_standard_witness :
    adjusted_rand_score [("a", "x"), ("b", "y")] = 1 :=
  (ari_standard [("a", "x"), ("b", "y")]).1 (by decide)

/-- C1: for every merged table and (rank, threshold) column pair, the emitted
ARI score is defined iff the valid rows (missing values dropped, then rank
labels case-insensitively equal to "na"/"unclassified" excluded) number more
than 1 and both the rank-label and cluster-label columns take more than one
distinct value on them; if all valid rows share one rank label the score is
undefined regardless of the cluster labels; the emitted N is the valid-row
count. -/
theorem ari_guard_iff (df : DF) (mode rank t : String) :
    ((computeRecord mode rank t df).ariScore.isSome = true ↔
      (1 < (validRows (extractPairs df rank (clusterLabelCol t))).length ∧
        1 < ((validRows (extractPairs df rank (clusterLabelCol t))).map
              Prod.fst).toFinset.card ∧
        1 < ((validRows (extractPairs df rank (clusterLabelCol t))).map
              Prod.snd).toFinset.card)) ∧
    ((∀ x ∈ validRows (extractPairs df rank (clusterLabelCol t)),
        ∀ y ∈ validRows (extractPairs df rank (clusterLabelCol t)), x.1 = y.1) →
      (computeRecord mode rank t df).ariScore = none) ∧
    (computeRecord mode rank t df).nSequences =
      (validRows (extractPairs df rank (clusterLabelCol t))).length :=
  ⟨scoreFromPairs_isSome_iff _, fun h => scoreFromPairs_allSame _ h, rfl⟩

/-- Witness for C1: a concrete table whose valid rows all share one rank
label but have two distinct cluster labels gets an undefined score. -/
theorem ari_guard_iff_witness :
    (computeRecord "cov_short_80" "genus" "0.90"
      ⟨["genus", "cluster_id_0.90"],
       [[some "g1", some "c1"], [some "g1", some "c2"]]⟩).ariScore = none :=
  (ari_guard_iff ⟨["genus", "cluster_id_0.90"],
    [[some "g1", some "c1"], [some "g1", some "c2"]]⟩
    "cov_short_80" "genus" "0.90").2.1 (by decide)

end CalcAri

namespace CalcAri

/-! ### Column-lookup lemmas -/

theorem idxOf?_eq_none_iff (c : String) (l : List String) :
    idxOf? c l = none ↔ c ∉ l := by
  induction l with
  | nil => simp [idxOf?]
  | cons a as ih =>
    by_cases ha : a == c
    · have : a = c := beq_iff_eq.mp ha
      subst this
      simp [idxOf?]
    · have hne : c ≠ a := fun h => ha (by simp [h])
      simp [idxOf?, ha, Option.map_eq_none', ih, List.mem_cons, hne]

theorem idxOf?_lt_length {c : String} {l : List String} :
    ∀ {i : Nat}, idxOf? c l = some i → i < l.length := by
  induction l with
  | nil => intro i h; simp [idxOf?] at h
  | cons a as ih =>
    intro i h
    by_cases ha : a == c
    · simp [idxOf?, ha] at h
      simp only [List.length_cons]
      omega
    · simp only [idxOf?, ha, Bool.false_eq_true, if_false, Option.map_eq_some'] at h
      obtain ⟨j, hj, rfl⟩ := h
      have := ih hj
      simp only [List.length_cons]
      omega

theorem idxOf?_append_left {c : String} {l₁ : List String} (l₂ : List String)
    {i : Nat} (h : idxOf? c l₁ = some i) : idxOf? c (l₁ ++ l₂) = some i := by
  induction l₁ generalizing i with
  | nil => simp [idxOf?] at h
  | cons a as ih =>
    by_cases ha : a == c
    · simp only [idxOf?, ha, if_true] at h ⊢
      exact h
    · simp only [idxOf?, ha, Bool.false_eq_true, if_false, Option.map_eq_some'] at h ⊢
      obtain ⟨j, hj, rfl⟩ := h
      exact ⟨j, ih hj, rfl⟩

theorem idxOf?_append_right {c : String} {l₁ : List String} (l₂ : List String)
    (h : c ∉ l₁) : idxOf? c (l₁ ++ l₂) = (idxOf? c l₂).map (· + l₁.length) := by
  induction l₁ with
  | nil =>
    show idxOf? c l₂ = (idxOf? c l₂).map (· + 0)
    cases idxOf? c l₂ <;> simp
  | cons a as ih =>
    have hne : (a == c) = false := by
      rw [beq_eq_false_iff_ne]
      intro hac
      exact h (List.mem_cons.mpr (Or.inl hac.symm))
    have h' : c ∉ as := fun hmem => h (List.mem_cons_of_mem a hmem)
    show (if (a == c) = true then some 0 else (idxOf? c (as ++ l₂)).map (· + 1)) =
      (idxOf? c l₂).map (· + (a :: as).length)
    rw [hne]
    simp only [Bool.false_eq_true, if_false]
    rw [ih h']
    cases idxOf? c l₂ with
    | none => rfl
    | some j =>
      simp only [Option.map_some', Option.some.injEq, List.length_cons]
      omega

theorem getCell_append_left {c : String} {cols : List String} (cols₂ : List String)
    {r : List Cell} (r₂ : List Cell) (hc : c ∈ cols) (hr : cols.length ≤ r.length) :
    getCell (cols ++ cols₂) (r ++ r₂) c = getCell cols r c := by
  obtain ⟨i, hi⟩ : ∃ i, idxOf? c cols = some i := by
    cases h : idxOf? c cols with
    | none => exact absurd ((idxOf?_eq_none_iff c cols).mp h) (by simp [hc])
    | some i => exact ⟨i, rfl⟩
  have hlt : i < r.length := lt_of_lt_of_le (idxOf?_lt_length hi) hr
  simp only [getCell, hi, idxOf?_append_left cols₂ hi]
  rw [List.get?_append hlt]

theorem getCell_notMem {c : String} {cols : List String} (r : List Cell)
    (hc : c ∉ cols) : getCell cols r c = none := by
  simp [getCell, (idxOf?_eq_none_iff c cols).mpr hc]

theorem getCell_append_right {c : String} {cols : List String} (cols₂ : List String)
    {r : List Cell} (r₂ : List Cell) (hc : c ∉ cols) (hr : r.length = cols.length) :
    getCell (cols ++ cols₂) (r ++ r₂) c = getCell cols₂ r₂ c := by
  simp only [getCell, idxOf?_append_right cols₂ hc]
  cases h2 : idxOf? c cols₂ with
  | none => rfl
  | some j =>
    simp only [Option.map_some']
    rw [List.get?_append_right (by omega)]
    have : j + cols.length - r.length = j := by omega
    rw [this]

/-! ### Merge-step shape lemmas -/

theorem mem_merge_rows {df : DF} {c : String} {l : List (Cell × Cell)}
    {r' : List Cell} (h : r' ∈ (mergeLeftCluster df c l).rows) :
    ∃ r ∈ df.rows, ∃ v : Cell, r' = r ++ [v] := by
  simp only [mergeLeftCluster, List.mem_flatMap] at h
  obtain ⟨r, hr, hmem⟩ := h
  by_cases hms : (rowMatches l (getCell df.cols r "Seq_ID")).isEmpty
  · rw [if_pos hms] at hmem
    simp only [List.mem_singleton] at hmem
    exact ⟨r, hr, none, hmem⟩
  · rw [if_neg hms] at hmem
    obtain ⟨v, _, rfl⟩ := List.mem_map.mp hmem
    exact ⟨r, hr, v, rfl⟩

theorem mem_addNone_rows {df : DF} {c : String} {r' : List Cell}
    (h : r' ∈ (addNoneCol df c).rows) : ∃ r ∈ df.rows, r' = r ++ [none] := by
  simp only [addNoneCol, List.mem_map] at h
  obtain ⟨r, hr, rfl⟩ := h
  exact ⟨r, hr, rfl⟩

theorem wf_merge {df : DF} (c : String) (l : List (Cell × Cell)) (h : Wf df) :
    Wf (mergeLeftCluster df c l) := by
  intro r' hr'
  obtain ⟨r, hr, v, rfl⟩ := mem_merge_rows hr'
  show (r ++ [v]).length = (df.cols ++ [c]).length
  simp [h r hr]

theorem wf_addNone {df : DF} (c : String) (h : Wf df) : Wf (addNoneCol df c) := by
  intro r' hr'
  obtain ⟨r, hr, rfl⟩ := mem_addNone_rows hr'
  show (r ++ [none]).length = (df.cols ++ [c]).length
  simp [h r hr]

theorem step_shape {files : String → LoadResult} {df df₁ : DF} {t : String}
    (hstep : mergeStep files df t = .ok df₁) :
    df₁.cols = df.cols ++ [clusterColName t] ∧
      (∀ r' ∈ df₁.rows, ∃ r ∈ df.rows, ∃ v : Cell, r' = r ++ [v]) ∧
      (Wf df → Wf df₁) := by
  rw [mergeStep] at hstep
  cases hft : files t with
  | ok l =>
    rw [hft] at hstep
    cases hstep
    exact ⟨rfl, fun r' hr' => mem_merge_rows hr', wf_merge _ _⟩
  | fileNotFound =>
    rw [hft] at hstep
    cases hstep
    refine ⟨rfl, fun r' hr' => ?_, wf_addNone _⟩
    obtain ⟨r, hr, rfl⟩ := mem_addNone_rows hr'
    exact ⟨r, hr, none, rfl⟩
  | loadError => rw [hft] at hstep; cases hstep

/-! ### Fold lemmas over the threshold list -/

theorem build_ok_cols {files : String → LoadResult} :
    ∀ (ths : List String) (df df' : DF), Wf df →
      List.foldlM (mergeStep files) df ths = .ok df' →
      Wf df' ∧ df'.cols = df.cols ++ ths.map clusterColName := by
  intro ths
  induction ths with
  | nil =>
    intro df df' hwf hok
    have h : (Except.ok df : Except Unit DF) = .ok df' := hok
    cases h
    simpa using hwf
  | cons t ts ih =>
    intro df df' hwf hok
    rw [List.foldlM_cons] at hok
    cases hstep : mergeStep files df t with
    | error e =>
      rw [hstep] at hok
      exact Except.noConfusion (hok : (Except.error e : Except Unit DF) = .ok df')
    | ok df₁ =>
      rw [hstep] at hok
      have hok' : List.foldlM (mergeStep files) df₁ ts = .ok df' := hok
      obtain ⟨hcols₁, _, hwfmap⟩ := step_shape hstep
      obtain ⟨hwf', hcols'⟩ := ih df₁ df' (hwfmap hwf) hok'
      refine ⟨hwf', ?_⟩
      rw [hcols', hcols₁, List.map_cons, List.append_assoc, List.singleton_append]

theorem build_ok_exists {files : String → LoadResult} :
    ∀ (ths : List String) (df : DF), (∀ t ∈ ths, files t ≠ .loadError) →
      ∃ df', List.foldlM (mergeStep files) df ths = .ok df' := by
  intro ths
  induction ths with
  | nil => intro df _; exact ⟨df, rfl⟩
  | cons t ts ih =>
    intro df h
    cases hft : files t with
    | loadError => exact absurd hft (h t (List.mem_cons_self t ts))
    | ok l =>
      obtain ⟨df', hdf'⟩ := ih (mergeLeftCluster df (clusterColName t) (cleanKeys l))
        (fun t' ht' => h t' (List.mem_cons_of_mem t ht'))
      refine ⟨df', ?_⟩
      rw [List.foldlM_cons, show mergeStep files df t =
        .ok (mergeLeftCluster df (clusterColName t) (cleanKeys l)) from by
          rw [mergeStep, hft]]
      exact hdf'
    | fileNotFound =>
      obtain ⟨df', hdf'⟩ := ih (addNoneCol df (clusterColName t))
        (fun t' ht' => h t' (List.mem_cons_of_mem t ht'))
      refine ⟨df', ?_⟩
      rw [List.foldlM_cons, show mergeStep files df t =
        .ok (addNoneCol df (clusterColName t)) from by rw [mergeStep, hft]]
      exact hdf'

theorem colNone_fold {files : String → LoadResult} {g : String} :
    ∀ (ths : List String) (df df' : DF), Wf df →
      g ∈ df.cols.map normalizeName →
      (∀ r ∈ df.rows, getCell (df.cols.map normalizeName) r g = none) →
      List.foldlM (mergeStep files) df ths = .ok df' →
      ∀ r' ∈ df'.rows, getCell (df'.cols.map normalizeName) r' g = none := by
  intro ths
  induction ths with
  | nil =>
    intro df df' _ _ hnone hok
    have h : (Except.ok df : Except Unit DF) = .ok df' := hok
    cases h
    exact hnone
  | cons t ts ih =>
    intro df df' hwf hg hnone hok
    rw [List.foldlM_cons] at hok
    cases hstep : mergeStep files df t with
    | error e =>
      rw [hstep] at hok
      exact Except.noConfusion (hok : (Except.error e : Except Unit DF) = .ok df')
    | ok df₁ =>
      rw [hstep] at hok
      have hok' : List.foldlM (mergeStep files) df₁ ts = .ok df' := hok
      obtain ⟨hcols₁, hshape, hwfmap⟩ := step_shape hstep
      have hg₁ : g ∈ df₁.cols.map normalizeName := by
        rw [hcols₁, List.map_append]
        exact List.mem_append_left _ hg
      have hnone₁ : ∀ r' ∈ df₁.rows, getCell (df₁.cols.map normalizeName) r' g = none := by
        intro r' hr'
        obtain ⟨r, hr, v, rfl⟩ := hshape r' hr'
        rw [hcols₁, List.map_append]
        rw [show (r ++ [v]) = (r ++ [v]) from rfl]
        rw [getCell_append_left _ [v] hg
          (by rw [List.length_map]; exact le_of_eq (hwf r hr).symm)]
        exact hnone r hr
      exact ih df₁ df' (hwfmap hwf) hg₁ hnone₁ hok'

end CalcAri

namespace CalcAri

/-! ### Facts about the fixed threshold list -/

theorem norm_ccn : ∀ t ∈ stdThresholds,
    normalizeName (clusterColName t) = clusterLabelCol t := by decide

theorem labelCol_inj_std : ∀ t ∈ stdThresholds, ∀ t' ∈ stdThresholds,
    clusterLabelCol t = clusterLabelCol t' → t = t' := by decide

theorem stdThresholds_nodup : stdThresholds.Nodup := by decide

/-! ### Record-level consequences of an all-missing column -/

theorem validRows_eq_nil {pairs : List (Cell × Cell)}
    (h : ∀ p ∈ pairs, p.2 = none) : validRows pairs = [] := by
  rw [validRows]
  have hfm : pairs.filterMap (fun p =>
      match p with
      | (some a, some b) => some ((a, b) : String × String)
      | _ => none) = [] := by
    rw [List.filterMap_eq_nil]
    intro p hp
    obtain ⟨a, b⟩ := p
    have hb : b = none := h (a, b) hp
    subst hb
    cases a <;> rfl
  rw [hfm]
  rfl

theorem computeRecord_of_none_col (df : DF) (mode rank t : String)
    (h : ∀ r ∈ df.rows, getCell df.cols r (clusterLabelCol t) = none) :
    (computeRecord mode rank t df).ariScore = none ∧
      (computeRecord mode rank t df).nSequences = 0 := by
  have hpairs : ∀ p ∈ extractPairs df rank (clusterLabelCol t), p.2 = none := by
    intro p hp
    obtain ⟨r, hr, rfl⟩ := List.mem_map.mp hp
    exact h r hr
  have hv := validRows_eq_nil hpairs
  constructor
  · show scoreFromPairs (extractPairs df rank (clusterLabelCol t)) = none
    rw [scoreFromPairs, hv]
    rfl
  · show (validRows (extractPairs df rank (clusterLabelCol t))).length = 0
    rw [hv]
    rfl

theorem mem_modeRecords {rec : ScoreRecord} {mode : String} {df : DF}
    {ths : List String} (h : rec ∈ modeRecords mode df ths) :
    ∃ rank ∈ taxonomicRanks, ∃ t ∈ ths, rec = computeRecord mode rank t df := by
  simp only [modeRecords, List.mem_flatMap] at h
  obtain ⟨rank, hrank, hmem⟩ := h
  by_cases hc : rank ∈ df.cols
  · rw [if_pos hc] at hmem
    obtain ⟨t, ht, hsome⟩ := List.mem_filterMap.mp hmem
    by_cases hct : clusterLabelCol t ∈ df.cols
    · rw [if_pos hct] at hsome
      exact ⟨rank, hrank, t, ht, (Option.some.inj hsome).symm⟩
    · rw [if_neg hct] at hsome
      cases hsome
  · rw [if_neg hc] at hmem
    cases hmem

/-! ### Claim C3 -/

/-- C3: when threshold `t0`'s cluster file is missing (and no other load
blows up), the merge loop completes, the merged table's `cluster_id_t0`
column is NaN in every row, the Congruence Calculator returns its records
normally (the run continues), and every Score Record for threshold `t0` has
an undefined ARI score with `N_Sequences = 0`. -/
theorem missing_file_scores (tax : DF) (fs : ModeFS) (mode t0 : String)
    (hw : Wf tax)
    (hcoln : ∀ t ∈ stdThresholds, clusterLabelCol t ∉ tax.cols.map normalizeName)
    (ht0 : t0 ∈ stdThresholds)
    (hmiss : fs.files t0 = .fileNotFound)
    (hok : ∀ t ∈ stdThresholds, fs.files t ≠ .loadError)
    (hdir : fs.dirExists = true) :
    ∃ m, buildMerged tax fs.files stdThresholds = .ok m ∧
      calculate_ari_for_mode tax fs mode stdThresholds =
        .ok (some (modeRecords mode (normalizeCols m) stdThresholds)) ∧
      (∀ r ∈ m.rows, getCell (m.cols.map normalizeName) r (clusterLabelCol t0) = none) ∧
      (∀ rec ∈ modeRecords mode (normalizeCols m) stdThresholds,
        rec.aaiThreshold = t0 → rec.ariScore = none ∧ rec.nSequences = 0) := by
  obtain ⟨pre, post, hsplit⟩ := List.append_of_mem ht0
  have hpremem : ∀ t ∈ pre, t ∈ stdThresholds := fun t ht => by
    rw [hsplit]; exact List.mem_append_left _ ht
  have hpostmem : ∀ t ∈ post, t ∈ stdThresholds := fun t ht => by
    rw [hsplit]; exact List.mem_append_right _ (List.mem_cons_of_mem _ ht)
  obtain ⟨df₁, hfold1⟩ := build_ok_exists pre tax (fun t ht => hok t (hpremem t ht))
  obtain ⟨hwf₁, hcols₁⟩ := build_ok_cols pre tax df₁ hw hfold1
  have hstep : mergeStep fs.files df₁ t0 = .ok (addNoneCol df₁ (clusterColName t0)) := by
    rw [mergeStep, hmiss]
  have hnotin : clusterLabelCol t0 ∉ df₁.cols.map normalizeName := by
    rw [hcols₁, List.map_append]
    intro hmem
    rcases List.mem_append.mp hmem with hmem | hmem
    · exact hcoln t0 ht0 hmem
    · rw [List.map_map] at hmem
      obtain ⟨t, htpre, hteq⟩ := List.mem_map.mp hmem
      have htstd := hpremem t htpre
      rw [Function.comp_apply, norm_ccn t htstd] at hteq
      have ht0t : t = t0 := labelCol_inj_std t htstd t0 ht0 hteq
      subst ht0t
      have hnodup := stdThresholds_nodup
      rw [hsplit] at hnodup
      obtain ⟨_, _, hdisj⟩ := List.nodup_append.mp hnodup
      exact hdisj htpre (List.mem_cons_self t post)
  have hwf₂ : Wf (addNoneCol df₁ (clusterColName t0)) := wf_addNone _ hwf₁
  have hcols₂n : (addNoneCol df₁ (clusterColName t0)).cols.map normalizeName =
      df₁.cols.map normalizeName ++ [clusterLabelCol t0] := by
    show (df₁.cols ++ [clusterColName t0]).map normalizeName = _
    rw [List.map_append, List.map_singleton, norm_ccn t0 ht0]
  have hg₂ : clusterLabelCol t0 ∈ (addNoneCol df₁ (clusterColName t0)).cols.map normalizeName := by
    rw [hcols₂n]
    exact List.mem_append_right _ (List.mem_singleton.mpr rfl)
  have hnone₂ : ∀ r' ∈ (addNoneCol df₁ (clusterColName t0)).rows,
      getCell ((addNoneCol df₁ (clusterColName t0)).cols.map normalizeName) r'
        (clusterLabelCol t0) = none := by
    intro r' hr'
    obtain ⟨r, hr, rfl⟩ := mem_addNone_rows hr'
    rw [hcols₂n,
      getCell_append_right [clusterLabelCol t0] [none] hnotin
        (by rw [List.length_map]; exact hwf₁ r hr)]
    simp [getCell, idxOf?]
  obtain ⟨m, hfoldpost⟩ := build_ok_exists post (addNoneCol df₁ (clusterColName t0))
    (fun t ht => hok t (hpostmem t ht))
  have hnoneM := colNone_fold post (addNoneCol df₁ (clusterColName t0)) m hwf₂ hg₂
    hnone₂ hfoldpost
  have hbuild : buildMerged tax fs.files stdThresholds = .ok m := by
    rw [buildMerged, hsplit, List.foldlM_append, hfold1]
    show List.foldlM (mergeStep fs.files) df₁ (t0 :: post) = .ok m
    rw [List.foldlM_cons, hstep]
    exact hfoldpost
  refine ⟨m, hbuild, ?_, hnoneM, ?_⟩
  · simp [calculate_ari_for_mode, hdir, hbuild]
  · intro rec hrec hth
    obtain ⟨rank, hrank, t, ht, hreceq⟩ := mem_modeRecords hrec
    subst hreceq
    have hteq : t = t0 := hth
    subst hteq
    exact computeRecord_of_none_col (normalizeCols m) mode rank t hnoneM

/-- Witness for C3: a one-row taxonomy and a mode directory whose cluster
files are all missing. -/
theorem missing_file_scores_witness :
    ∃ m, buildMerged taxOneRow fsAllMissing.files stdThresholds = .ok m ∧
      calculate_ari_for_mode taxOneRow fsAllMissing "cov_short_80" stdThresholds =
        .ok (some (modeRecords "cov_short_80" (normalizeCols m) stdThresholds)) ∧
      (∀ r ∈ m.rows,
        getCell (m.cols.map normalizeName) r (clusterLabelCol "0.90") = none) ∧
      (∀ rec ∈ modeRecords "cov_short_80" (normalizeCols m) stdThresholds,
        rec.aaiThreshold = "0.90" → rec.ariScore = none ∧ rec.nSequences = 0) :=
  missing_file_scores taxOneRow fsAllMissing "cov_short_80" "0.90"
    (by decide) (by decide) (by decide) rfl
    (fun t _ h => by simp [fsAllMissing, filesAllMissing] at h) rfl

end CalcAri

namespace CalcAri

/-! ### Left-join characterization under duplicate-free keys -/

theorem filter_eq_find?_of_nodup {l : List (Cell × Cell)}
    (hnd : (l.map Prod.fst).Nodup) (k : Cell) :
    l.filter (fun p => p.1 == k) = (l.find? (fun p => p.1 == k)).toList := by
  induction l with
  | nil => rfl
  | cons a l ih =>
    rw [List.map_cons, List.nodup_cons] at hnd
    obtain ⟨hna, hnd'⟩ := hnd
    by_cases ha : (a.1 == k) = true
    · rw [List.filter_cons_of_pos (p := fun q : Cell × Cell => q.1 == k) ha,
        List.find?_cons_of_pos (p := fun q : Cell × Cell => q.1 == k) l ha]
      have hnil : l.filter (fun p => p.1 == k) = [] := by
        rw [List.filter_eq_nil]
        intro p hp hpk
        exact hna (List.mem_map.mpr ⟨p, hp,
          by rw [beq_iff_eq.mp hpk, ← beq_iff_eq.mp ha]⟩)
      rw [hnil]
      rfl
    · rw [List.filter_cons_of_neg (p := fun q : Cell × Cell => q.1 == k) ha,
        List.find?_cons_of_neg (p := fun q : Cell × Cell => q.1 == k) l ha]
      exact ih hnd'

theorem merge_rows_nodup (df : DF) (c : String) (l : List (Cell × Cell))
    (hnd : (l.map Prod.fst).Nodup) :
    (mergeLeftCluster df c l).rows =
      df.rows.map (fun r => r ++ [lookupVal l (getCell df.cols r "Seq_ID")]) := by
  have hfun : ∀ r : List Cell,
      (if (rowMatches l (getCell df.cols r "Seq_ID")).isEmpty then [r ++ [(none : Cell)]]
       else (rowMatches l (getCell df.cols r "Seq_ID")).map (fun v => r ++ [v]))
      = [r ++ [lookupVal l (getCell df.cols r "Seq_ID")]] := by
    intro r
    have hrm : rowMatches l (getCell df.cols r "Seq_ID") =
        ((l.find? (fun p => p.1 == getCell df.cols r "Seq_ID")).toList).map Prod.snd := by
      rw [rowMatches, filter_eq_find?_of_nodup hnd]
    cases hf : l.find? (fun p => p.1 == getCell df.cols r "Seq_ID") with
    | none => simp [hrm, hf, lookupVal]
    | some p => simp [hrm, hf, lookupVal]
  show df.rows.flatMap _ = _
  calc df.rows.flatMap (fun r =>
        if (rowMatches l (getCell df.cols r "Seq_ID")).isEmpty then [r ++ [(none : Cell)]]
        else (rowMatches l (getCell df.cols r "Seq_ID")).map (fun v => r ++ [v]))
      = df.rows.flatMap (fun r => [r ++ [lookupVal l (getCell df.cols r "Seq_ID")]]) := by
        rw [funext hfun]
    _ = df.rows.map (fun r => r ++ [lookupVal l (getCell df.cols r "Seq_ID")]) := by
        induction df.rows with
        | nil => rfl
        | cons r rs ih => simp_all

theorem assignCell_of_notMem {files : String → LoadResult} {t : String}
    {l : List (Cell × Cell)} {k : Cell} (hft : files t = .ok l)
    (hk : k ∉ (cleanKeys l).map Prod.fst) : assignCell files t k = none := by
  rw [assignCell, hft]
  have hnone : (cleanKeys l).find? (fun p => p.1 == k) = none := by
    rw [List.find?_eq_none]
    intro p hp hbeq
    exact hk (List.mem_map.mpr ⟨p, hp, beq_iff_eq.mp hbeq⟩)
  show lookupVal (cleanKeys l) k = none
  rw [lookupVal.eq_def, hnone]

theorem build_rows_nodup {files : String → LoadResult} :
    ∀ (ths : List String) (df : DF), Wf df →
      (∀ t ∈ ths, clusterColName t ≠ "Seq_ID") →
      (∀ t ∈ ths, ∀ l, files t = .ok l → ((cleanKeys l).map Prod.fst).Nodup) →
      (∀ t ∈ ths, files t ≠ .loadError) →
      ∃ m, List.foldlM (mergeStep files) df ths = .ok m ∧
        m.cols = df.cols ++ ths.map clusterColName ∧
        m.rows = df.rows.map (fun r =>
          r ++ ths.map (fun t => assignCell files t (getCell df.cols r "Seq_ID"))) := by
  intro ths
  induction ths with
  | nil =>
    intro df _ _ _ _
    exact ⟨df, rfl, by simp, by simp⟩
  | cons t ts ih =>
    intro df hwf hseq hnd hok
    have hkey : ∀ (v : Cell) (r : List Cell), r ∈ df.rows →
        getCell (df.cols ++ [clusterColName t]) (r ++ [v]) "Seq_ID" =
          getCell df.cols r "Seq_ID" := by
      intro v r hr
      by_cases hs : "Seq_ID" ∈ df.cols
      · exact getCell_append_left _ _ hs (le_of_eq (hwf r hr).symm)
      · rw [getCell_notMem _ hs, getCell_notMem]
        intro hmem
        rcases List.mem_append.mp hmem with hmem | hmem
        · exact hs hmem
        · exact hseq t (List.mem_cons_self t ts) (List.mem_singleton.mp hmem).symm
    cases hft : files t with
    | loadError => exact absurd hft (hok t (List.mem_cons_self t ts))
    | ok l =>
      have hstep : mergeStep files df t =
          .ok (mergeLeftCluster df (clusterColName t) (cleanKeys l)) := by
        rw [mergeStep, hft]
      have hrows₁ : (mergeLeftCluster df (clusterColName t) (cleanKeys l)).rows =
          df.rows.map (fun r => r ++ [lookupVal (cleanKeys l) (getCell df.cols r "Seq_ID")]) :=
        merge_rows_nodup _ _ _ (hnd t (List.mem_cons_self t ts) l hft)
      obtain ⟨m, hfold, hcols, hrows⟩ :=
        ih (mergeLeftCluster df (clusterColName t) (cleanKeys l))
          (wf_merge _ _ hwf)
          (fun t' ht' => hseq t' (List.mem_cons_of_mem t ht'))
          (fun t' ht' => hnd t' (List.mem_cons_of_mem t ht'))
          (fun t' ht' => hok t' (List.mem_cons_of_mem t ht'))
      refine ⟨m, ?_, ?_, ?_⟩
      · rw [List.foldlM_cons, hstep]
        exact hfold
      · rw [hcols]
        show (df.cols ++ [clusterColName t]) ++ ts.map clusterColName = _
        rw [List.map_cons, List.append_assoc, List.singleton_append]
      · rw [hrows, hrows₁, List.map_map]
        apply List.map_congr_left
        intro r hr
        show (r ++ [lookupVal (cleanKeys l) (getCell df.cols r "Seq_ID")]) ++
            ts.map (fun t' => assignCell files t'
              (getCell (mergeLeftCluster df (clusterColName t) (cleanKeys l)).cols
                (r ++ [lookupVal (cleanKeys l) (getCell df.cols r "Seq_ID")]) "Seq_ID")) =
          r ++ (t :: ts).map (fun t' => assignCell files t' (getCell df.cols r "Seq_ID"))
        rw [show (mergeLeftCluster df (clusterColName t) (cleanKeys l)).cols =
          df.cols ++ [clusterColName t] from rfl]
        rw [hkey _ r hr, List.map_cons, List.append_assoc, List.singleton_append]
        rw [show assignCell files t (getCell df.cols r "Seq_ID") =
          lookupVal (cleanKeys l) (getCell df.cols r "Seq_ID") from by rw [assignCell, hft]]
    | fileNotFound =>
      have hstep : mergeStep files df t = .ok (addNoneCol df (clusterColName t)) := by
        rw [mergeStep, hft]
      have hrows₁ : (addNoneCol df (clusterColName t)).rows =
          df.rows.map (fun r => r ++ [(none : Cell)]) := rfl
      obtain ⟨m, hfold, hcols, hrows⟩ :=
        ih (addNoneCol df (clusterColName t))
          (wf_addNone _ hwf)
          (fun t' ht' => hseq t' (List.mem_cons_of_mem t ht'))
          (fun t' ht' => hnd t' (List.mem_cons_of_mem t ht'))
          (fun t' ht' => hok t' (List.mem_cons_of_mem t ht'))
      refine ⟨m, ?_, ?_, ?_⟩
      · rw [List.foldlM_cons, hstep]
        exact hfold
      · rw [hcols]
        show (df.cols ++ [clusterColName t]) ++ ts.map clusterColName = _
        rw [List.map_cons, List.append_assoc, List.singleton_append]
      · rw [hrows, hrows₁, List.map_map]
        apply List.map_congr_left
        intro r hr
        show (r ++ [(none : Cell)]) ++
            ts.map (fun t' => assignCell files t'
              (getCell (addNoneCol df (clusterColName t)).cols
                (r ++ [(none : Cell)]) "Seq_ID")) =
          r ++ (t :: ts).map (fun t' => assignCell files t' (getCell df.cols r "Seq_ID"))
        rw [show (addNoneCol df (clusterColName t)).cols =
          df.cols ++ [clusterColName t] from rfl]
        rw [hkey none r hr, List.map_cons, List.append_assoc, List.singleton_append]
        rw [show assignCell files t (getCell df.cols r "Seq_ID") = (none : Cell) from by
          rw [assignCell, hft]]

end CalcAri

namespace CalcAri

/-! ### Claim C4 -/

/-- C4 (amended): provided every assignment table has duplicate-free
identifiers, the merged table has exactly one row per reference-table row,
in order: each merged row is its reference row extended with one cluster
cell per threshold (so identifiers appearing only in an assignment table
contribute no row), and a reference row whose identifier does not occur in
an assignment table gets a NaN cluster cell for that threshold. -/
theorem merged_left_join (tax : DF) (files : String → LoadResult)
    (hw : Wf tax)
    (hnd : ∀ t ∈ stdThresholds, ∀ l, files t = .ok l →
      ((cleanKeys l).map Prod.fst).Nodup)
    (hok : ∀ t ∈ stdThresholds, files t ≠ .loadError) :
    ∃ m, buildMerged tax files stdThresholds = .ok m ∧
      m.rows.length = tax.rows.length ∧
      m.rows = tax.rows.map (fun r =>
        r ++ stdThresholds.map (fun t =>
          assignCell files t (getCell tax.cols r "Seq_ID"))) ∧
      (∀ r ∈ tax.rows, ∀ t ∈ stdThresholds, ∀ l, files t = .ok l →
        getCell tax.cols r "Seq_ID" ∉ (cleanKeys l).map Prod.fst →
        assignCell files t (getCell tax.cols r "Seq_ID") = none) := by
  have hseq : ∀ t ∈ stdThresholds, clusterColName t ≠ "Seq_ID" := by decide
  obtain ⟨m, hfold, _, hrows⟩ := build_rows_nodup stdThresholds tax hw hseq hnd hok
  refine ⟨m, hfold, ?_, hrows, ?_⟩
  · rw [hrows, List.length_map]
  · intro r _ t _ l hft hnotmem
    exact assignCell_of_notMem hft hnotmem

/-- C4 counterexample: with a duplicated identifier A in the 0.90 assignment
table, the merged table has two rows although the reference table has one
row and a single identifier — not "exactly one row per identifier present in
the reference table". -/
theorem merge_duplicate_keys_cex :
    (buildMerged taxOneRow filesC4 stdThresholds).map (fun m => m.rows.length) =
      .ok 2 ∧ taxOneRow.rows.length = 1 := ⟨rfl, rfl⟩

/-- Witness for C4 at a concrete table with duplicate-free assignments. -/
theorem merged_left_join_witness :
    ∃ m, buildMerged taxOneRow filesAllMissing stdThresholds = .ok m ∧
      m.rows.length = taxOneRow.rows.length ∧
      m.rows = taxOneRow.rows.map (fun r =>
        r ++ stdThresholds.map (fun t =>
          assignCell filesAllMissing t (getCell taxOneRow.cols r "Seq_ID"))) ∧
      (∀ r ∈ taxOneRow.rows, ∀ t ∈ stdThresholds, ∀ l, filesAllMissing t = .ok l →
        getCell taxOneRow.cols r "Seq_ID" ∉ (cleanKeys l).map Prod.fst →
        assignCell filesAllMissing t (getCell taxOneRow.cols r "Seq_ID") = none) :=
  merged_left_join taxOneRow filesAllMissing (by decide)
    (fun t _ l hl => by simp [filesAllMissing] at hl)
    (fun t _ hl => by simp [filesAllMissing] at hl)

/-! ### Claim C5 -/

/-- C5 counterexample: a load failure other than a missing file (e.g. an
empty, unreadable or malformed cluster file) escapes the Congruence
Calculator as an uncaught exception instead of being contained — the mode
computation ends in an error, not in a record table. -/
theorem loader_error_escalates_cex :
    calculate_ari_for_mode taxOneRow fsC5 "cov_short_80" stdThresholds =
      .error () := rfl

/-- C5 (amended): only missing-file failures (`FileNotFoundError`) are
contained: whenever no cluster-file load raises any other exception, the
Congruence Calculator returns normally (absent directory included). -/
theorem loader_notfound_contained (tax : DF) (fs : ModeFS) (mode : String)
    (h : ∀ t ∈ stdThresholds, fs.files t ≠ .loadError) :
    ∃ r, calculate_ari_for_mode tax fs mode stdThresholds = .ok r := by
  by_cases hdir : fs.dirExists
  · obtain ⟨m, hm⟩ := build_ok_exists stdThresholds tax h
    have hm' : buildMerged tax fs.files stdThresholds = .ok m := hm
    exact ⟨some (modeRecords mode (normalizeCols m) stdThresholds), by
      simp [calculate_ari_for_mode, hdir, hm']⟩
  · exact ⟨none, by simp [calculate_ari_for_mode, hdir]⟩

/-- Witness for C5: all cluster files missing, directory present. -/
theorem loader_notfound_contained_witness :
    ∃ r, calculate_ari_for_mode taxOneRow fsAllMissing "cov_short_80"
      stdThresholds = .ok r :=
  loader_notfound_contained taxOneRow fsAllMissing "cov_short_80"
    (fun t _ h => by simp [fsAllMissing, filesAllMissing] at h)

/-! ### Claim C2 -/

/-- C2 counterexample: in the scenario (A:g1, B:g2, C:Unclassified; cluster
file at 0.70 maps A:c1, B:c2, C:c1) the computed ARI at Genus/0.70 is 1.0 —
the two partitions of {A,B} agree perfectly up to relabeling, and
scikit-learn returns 1.0 for this full-agreement case — not -1.0 as the
claim states. -/
theorem scenario_genus_070_cex :
    recsC2.get? 1 = some ⟨"cov_short_80", "Genus", "0.70", some 1, 2⟩ ∧
      (-1 : ℚ) < 1 := ⟨by decide, by decide⟩

/-- C2 (amended): the scenario's valid rows are exactly A's and B's label
pairs (C is excluded by the "Unclassified" filter), N = 2, the variability
guard passes, and the computed score is 1.0. -/
theorem scenario_genus_070_amended :
    recsC2 = [⟨"cov_short_80", "Genus", "0.90", none, 0⟩,
      ⟨"cov_short_80", "Genus", "0.70", some 1, 2⟩,
      ⟨"cov_short_80", "Genus", "0.50", none, 0⟩,
      ⟨"cov_short_80", "Genus", "0.30", none, 0⟩] ∧
    validRows (extractPairs (normalizeCols mergedC2) "genus"
      (clusterLabelCol "0.70")) = [("g1", "c1"), ("g2", "c2")] ∧
    ariGuard (validRows (extractPairs (normalizeCols mergedC2) "genus"
      (clusterLabelCol "0.70"))) = true := ⟨by decide, by decide, by decide⟩

end CalcAri

namespace CalcAri

/-! ### Pivot lemmas -/

theorem mem_insertSorted (le : α → α → Bool) (a x : α) :
    ∀ l : List α, x ∈ insertSorted le a l ↔ x = a ∨ x ∈ l := by
  intro l
  induction l with
  | nil => simp [insertSorted]
  | cons b bs ih =>
    show x ∈ (if le a b then a :: b :: bs else b :: insertSorted le a bs) ↔
      x = a ∨ x ∈ b :: bs
    by_cases h : le a b
    · rw [if_pos h]
      simp only [List.mem_cons]
    · rw [if_neg h]
      simp only [List.mem_cons, ih]
      tauto

theorem mem_sortBy (le : α → α → Bool) (x : α) (l : List α) :
    x ∈ sortBy le l ↔ x ∈ l := by
  rw [sortBy]
  induction l with
  | nil => simp
  | cons a as ih =>
    rw [List.foldr_cons, mem_insertSorted]
    simp only [List.mem_cons, ih]

theorem mem_survivingKeys {recs : List ScoreRecord} {k : String × String × String} :
    k ∈ survivingKeys recs ↔
      ∃ rec ∈ recs, recKey rec = k ∧ rec.ariScore.isSome = true := by
  rw [survivingKeys, List.mem_filter, List.mem_dedup]
  constructor
  · rintro ⟨hmem, hsome⟩
    simp only [groupMean] at hsome
    by_cases hd : ((recs.filter (fun r => recKey r == k)).filterMap
        (fun r => r.ariScore)).isEmpty
    · rw [if_pos hd] at hsome
      simp at hsome
    · obtain ⟨q, hq⟩ := List.exists_mem_of_ne_nil
        ((recs.filter (fun r => recKey r == k)).filterMap (fun r => r.ariScore))
        (fun hnil => hd (by rw [hnil]; rfl))
      obtain ⟨rec, hrecmem, hrecscore⟩ := List.mem_filterMap.mp hq
      obtain ⟨hrec, hbeq⟩ := List.mem_filter.mp hrecmem
      exact ⟨rec, hrec, beq_iff_eq.mp hbeq, by rw [hrecscore]; rfl⟩
  · rintro ⟨rec, hrec, hkey, hsome⟩
    refine ⟨List.mem_map.mpr ⟨rec, hrec, hkey⟩, ?_⟩
    obtain ⟨q, hq⟩ := Option.isSome_iff_exists.mp hsome
    have hqmem : q ∈ (recs.filter (fun r => recKey r == k)).filterMap
        (fun r => r.ariScore) :=
      List.mem_filterMap.mpr ⟨rec,
        List.mem_filter.mpr ⟨hrec, by rw [hkey]; exact beq_self_eq_true k⟩, hq⟩
    have hne : ¬((recs.filter (fun r => recKey r == k)).filterMap
        (fun r => r.ariScore)).isEmpty = true := by
      intro hemp
      rw [List.isEmpty_iff.mp hemp] at hqmem
      exact absurd hqmem (List.not_mem_nil q)
    simp only [groupMean]
    rw [if_neg hne]
    rfl

/-! ### Claim C6 -/

/-- C6 (amended): the summary matrix's rows are exactly the ranks with at
least one defined score and its columns exactly the (mode, threshold) pairs
with at least one defined score — pandas `pivot_table` with its default
`dropna=True` silently drops groups whose aggregate is NaN, so combinations
(or ranks) all of whose scores are undefined get no column (or row) at all;
each cell holds the group's score rounded to 4 decimals, or NaN when that
particular (rank, mode, threshold) group is undefined or absent. -/
theorem pivot_structure (recs : List ScoreRecord) :
    (pivotTable recs).rowIndex.toFinset =
      ((recs.filter (fun r => r.ariScore.isSome)).map
        (fun r => r.taxonomicRank)).toFinset ∧
    (pivotTable recs).colIndex.toFinset =
      ((recs.filter (fun r => r.ariScore.isSome)).map
        (fun r => (r.coverageMode, r.aaiThreshold))).toFinset ∧
    (pivotTable recs).cells = (pivotTable recs).rowIndex.map (fun rk =>
      (pivotTable recs).colIndex.map (fun c =>
        (groupMean recs (rk, c.1, c.2)).map round4)) := by
  refine ⟨?_, ?_, rfl⟩
  · apply Finset.ext
    intro x
    rw [List.mem_toFinset, List.mem_toFinset]
    show x ∈ sortBy strLe (((survivingKeys recs).map (fun k => k.1)).dedup) ↔ _
    rw [mem_sortBy, List.mem_dedup]
    constructor
    · intro hmem
      obtain ⟨k, hk, rfl⟩ := List.mem_map.mp hmem
      obtain ⟨rec, hrec, hkey, hsome⟩ := mem_survivingKeys.mp hk
      refine List.mem_map.mpr ⟨rec, List.mem_filter.mpr ⟨hrec, hsome⟩, ?_⟩
      rw [← hkey]
      rfl
    · intro hmem
      obtain ⟨rec, hrecf, rfl⟩ := List.mem_map.mp hmem
      obtain ⟨hrec, hsome⟩ := List.mem_filter.mp hrecf
      exact List.mem_map.mpr ⟨recKey rec,
        mem_survivingKeys.mpr ⟨rec, hrec, rfl, hsome⟩, rfl⟩
  · apply Finset.ext
    intro x
    rw [List.mem_toFinset, List.mem_toFinset]
    show x ∈ sortBy pairLe (((survivingKeys recs).map
      (fun k => (k.2.1, k.2.2))).dedup) ↔ _
    rw [mem_sortBy, List.mem_dedup]
    constructor
    · intro hmem
      obtain ⟨k, hk, rfl⟩ := List.mem_map.mp hmem
      obtain ⟨rec, hrec, hkey, hsome⟩ := mem_survivingKeys.mp hk
      refine List.mem_map.mpr ⟨rec, List.mem_filter.mpr ⟨hrec, hsome⟩, ?_⟩
      rw [← hkey]
      rfl
    · intro hmem
      obtain ⟨rec, hrecf, rfl⟩ := List.mem_map.mp hmem
      obtain ⟨hrec, hsome⟩ := List.mem_filter.mp hrecf
      exact List.mem_map.mpr ⟨recKey rec,
        mem_survivingKeys.mpr ⟨rec, hrec, rfl, hsome⟩, rfl⟩

/-- C6 counterexample: records exist for (cov_short_80, 0.70) and for rank
Order, but all their scores are undefined, so the pivoted matrix has neither
that column nor that row — contradicting the claim that every evaluated
(mode, threshold) combination gets a column (with a NaN marker) and every
rank a row. -/
theorem pivot_drops_undefined_cex :
    (pivotTable recsC6).rowIndex = ["Genus"] ∧
      (pivotTable recsC6).colIndex = [("cov_short_80", "0.90")] := ⟨rfl, rfl⟩

/-! ### Claim C9 -/

/-- C9: the pipeline writes its output file iff the taxonomy file parsed and
the (single) coverage mode produced a nonempty record table; on either fatal
condition — unparseable taxonomy, or no Score Records produced (absent mode
directory, escaped load exception, or no rank columns) — it stops with no
output file written; on normal completion the written/printed output is the
pivoted summary of the produced records. -/
theorem main_output_iff (taxLoad : Option DF) (fs : ModeFS) :
    (main taxLoad fs = .noOutput ↔
      (taxLoad = none ∨ producedRecords taxLoad fs = [])) ∧
    (∀ p, main taxLoad fs = .output p →
      p = pivotTable (producedRecords taxLoad fs)) := by
  cases taxLoad with
  | none =>
    refine ⟨by simp [main, producedRecords], ?_⟩
    intro p hp
    simp [main] at hp
  | some df0 =>
    cases hc : calculate_ari_for_mode (prepTax df0) fs "cov_short_80" stdThresholds with
    | error e =>
      refine ⟨by simp [main, producedRecords, hc], ?_⟩
      intro p hp
      simp [main, hc] at hp
    | ok o =>
      cases o with
      | none =>
        refine ⟨by simp [main, producedRecords, hc], ?_⟩
        intro p hp
        simp [main, hc] at hp
      | some recs =>
        by_cases hr : recs.isEmpty
        · have hrnil : recs = [] := List.isEmpty_iff.mp hr
          refine ⟨by simp [main, producedRecords, hc, hr, hrnil], ?_⟩
          intro p hp
          simp [main, hc, hr] at hp
        · have hrnil : recs ≠ [] := fun h => hr (by rw [h]; rfl)
          refine ⟨by simp [main, producedRecords, hc, hr, hrnil], ?_⟩
          intro p hp
          simp only [main, hc, hr, Bool.false_eq_true, if_false,
            MainOutcome.output.injEq] at hp
          rw [← hp]
          simp [producedRecords, hc]

/-- Witness for C9: an unparseable taxonomy file produces no output. -/
theorem main_output_iff_witness :
    main none fsAllMissing = .noOutput :=
  (main_output_iff none fsAllMissing).1.mpr (Or.inl rfl)

end CalcAri
